import Mathlib

/-!
Verification of the elastic backend iterator (graph/elastic/iterator.go).

The Go code is shallowly embedded: the mutable `Iterator` struct becomes an
immutable record and each method returns the successor state explicitly.
Backend calls made through the elastic client (scroll start, scroll
continuation, count, field-mapping retrieval) are abstracted as a `Backend`
record of response functions, matching the interface the spec describes in
its section 6.  A Go `panic` (an out-of-range index or a failed type
assertion) is modelled by returning `none`.
-/

namespace CayleyElastic

/-- Modelled from the spec: quad.Direction of the host engine (not under
src/) — the named roles subject/predicate/object/label, the Any wildcard
used by the all-iterator, and the QuadMetadata marker that selects the
metadata-filter translation. -/
inductive Direction
  | any
  | subject
  | predicate
  | object
  | label
  | quadMetadata
deriving DecidableEq

/-- Modelled from the spec: quad.Direction.String of the host engine (not
under src/), the field-name prefix used when building queries. -/
def Direction.str : Direction → String
  | Direction.any => "any"
  | Direction.subject => "subject"
  | Direction.predicate => "predicate"
  | Direction.object => "object"
  | Direction.label => "label"
  | Direction.quadMetadata => "metadata"

/-- Modelled from the spec: the host's graph.Value, which in this backend
is one of NodeHash (a node identifier string), QuadHash (a quad identifier
string) or QuadRefGraphValue (a metadata filter map); these concrete types
live outside src/.  Equality of two values of different shapes is false,
as for Go interface comparison of distinct dynamic types. -/
inductive GraphValue
  | nodeHash (s : String)
  | quadHash (s : String)
  | quadRef (filters : List (String × String))
deriving DecidableEq

/-- A leaf elastic query as built by the source: NewTermQuery,
NewRangeQuery(field).From(lo).To(hi), NewRegexpQuery. -/
inductive SimpleQuery
  | term (field value : String)
  | range (field lo hi : String)
  | regexp (field pattern : String)
deriving DecidableEq

/-- The elastic queries the source constructs: a leaf query, a
NewBoolQuery().Filter(...) conjunction of leaves, or NewTypeQuery. -/
inductive Query
  | simple (q : SimpleQuery)
  | boolFilter (filters : List SimpleQuery)
  | typeQuery (t : String)
deriving DecidableEq

/-- One scroll reply (elastic.SearchResult): the ordered hit identifiers
of the current page (Hits.Hits ids), the query's total hit count
(Hits.TotalHits) and the continuation token (ScrollId, abstracted to a
number). -/
structure SearchResult where
  hits : List String
  totalHits : Int
  scrollId : Nat
deriving DecidableEq

/-- Modelled from the spec: the host's graph.Tagger (not under src/), a
list of plain tags plus fixed key/value tag bindings. -/
structure Tagger where
  tagList : List String
  fixed : List (String × GraphValue)
deriving DecidableEq

/-- Modelled from the spec: graph.Tagger.CopyFrom (not under src/) copies
the source iterator's tag bindings into the destination tagger. -/
def Tagger.copyFrom (dst src : Tagger) : Tagger :=
  { tagList := dst.tagList ++ src.tagList, fixed := dst.fixed ++ src.fixed }

/-- The elastic client operations the iterator uses, at the interface the
spec gives: field-mapping retrieval (GetFieldMapping), scroll start with
and without a query, scroll continuation by token, and the count query
behind QuadStore.getSize (not under src/, modelled from the spec's
countMatching).  Errors are opaque; count follows the Go convention of
returning a value together with an optional error. -/
structure Backend where
  fieldMapping : Except Unit (List (String × String))
  scrollStartAll : String → Except Unit SearchResult
  scrollStartQuery : String → Query → Except Unit SearchResult
  scrollNext : Nat → Except Unit SearchResult
  count : String → Query → Int × Option Unit

/-- getFieldMap: fetches the index field mapping, returning nil (here the
empty list) on error.  The source's navigation of the nested JSON mapping
is flattened to an association list from "direction.key" to the field's
mapped type string. -/
def getFieldMap (be : Backend) : List (String × String) :=
  match be.fieldMapping with
  | Except.error _ => []
  | Except.ok m => m

/-- isTime: true when the mapped type of field "dir.key" is "date"; any
lookup failure is recovered to false, mirroring the source's
recover-to-zero-value deferred handler. -/
def isTime (fieldMap : List (String × String)) (keyVal : String) (quadDir : Direction) : Bool :=
  fieldMap.lookup (quadDir.str ++ "." ++ keyVal) == some "date"

/-- The left-to-right scan behind splitArrow: cut the character list at
every non-overlapping occurrence of the two-character range delimiter. -/
def splitArrowAux : List Char → List Char → List (List Char)
  | [], acc => [acc.reverse]
  | '=' :: '>' :: rest, acc => acc.reverse :: splitArrowAux rest []
  | c :: rest, acc => splitArrowAux rest (c :: acc)

/-- The range-delimiter split of the source, strings.Split(value, "=>"):
the pieces of the value around each non-overlapping occurrence of the
delimiter, scanning left to right; a value without the delimiter yields
the one-element list. -/
def splitArrow (value : String) : List String :=
  (splitArrowAux value.toList []).map (fun l => String.mk l)

/-- The filter list built by NewIterator's metadata branch: a time-typed
key whose value splits on the range delimiter into at least two parts
becomes a range query; a time-typed key with a malformed value appends the
match-nothing nullterm term and stops (the source's break); any other key
becomes a regexp query.  Filters are processed in list order (the source
ranges over a Go map). -/
def buildFilterQueries (fieldMap : List (String × String)) (d : Direction) :
    List (String × String) → List SimpleQuery
  | [] => []
  | (key, value) :: rest =>
    if isTime fieldMap key d then
      match splitArrow value with
      | a :: b :: _ =>
        SimpleQuery.range (d.str ++ "." ++ key) a b :: buildFilterQueries fieldMap d rest
      | _ => [SimpleQuery.term "nullterm" "nullterm"]
    else
      SimpleQuery.regexp (d.str ++ "." ++ key) value :: buildFilterQueries fieldMap d rest

/-- The metadata-request predicate of NewIterator: a bool filter of the
per-key queries when the schema mapping is non-empty, otherwise the
match-nothing nullterm term query. -/
def metadataQuery (fieldMap : List (String × String)) (filters : List (String × String)) : Query :=
  if fieldMap.length ≠ 0 then
    Query.boolFilter (buildFilterQueries fieldMap Direction.quadMetadata filters)
  else
    Query.simple (SimpleQuery.term "nullterm" "nullterm")

/-- The Iterator struct of the source, field for field.  The QuadStore
pointer qs is reduced to a store identity (its client calls go through
`Backend`); scrollId and types are carried but, as in the source, never
read. -/
structure Iterator where
  uid : Nat
  tags : Tagger
  qs : Nat
  dir : Direction
  resultSet : Option SearchResult
  resultIndex : Nat
  scrollId : String
  hash : GraphValue
  size : Int
  isAll : Bool
  resultType : String
  types : String
  query : Query
  result : Option GraphValue
  err : Option Unit
deriving DecidableEq

/-- NewIterator: builds an iterator for a direction/value request.  The
metadata branch consults the schema (getFieldMap) and translates the
filter map; the directed branch builds a term query on the direction's
field name.  The source's type assertions val.(QuadRefGraphValue) and
val.(NodeHash) panic on any other shape, modelled as none. -/
def newIterator (uid : Nat) (be : Backend) (qs : Nat) (resultType : String)
    (d : Direction) (val : GraphValue) : Option Iterator :=
  if d = Direction.quadMetadata then
    match val with
    | GraphValue.quadRef filters =>
      some { uid := uid, tags := ⟨[], []⟩, qs := qs, dir := d, resultSet := none,
             resultIndex := 0, scrollId := "", hash := GraphValue.quadRef filters,
             size := -1, isAll := false, resultType := resultType, types := "",
             query := metadataQuery (getFieldMap be) filters,
             result := none, err := none }
    | _ => none
  else
    match val with
    | GraphValue.nodeHash h =>
      some { uid := uid, tags := ⟨[], []⟩, qs := qs, dir := d, resultSet := none,
             resultIndex := 0, scrollId := "", hash := GraphValue.nodeHash h,
             size := -1, isAll := false, resultType := resultType, types := "",
             query := Query.simple (SimpleQuery.term d.str h),
             result := none, err := none }
    | _ => none

/-- NewAllIterator: an unfiltered iterator over all records of the given
result type, with a type query, direction Any and an empty NodeHash. -/
def newAllIterator (uid : Nat) (qs : Nat) (resultType : String) : Iterator :=
  { uid := uid, tags := ⟨[], []⟩, qs := qs, dir := Direction.any, resultSet := none,
    resultIndex := 0, scrollId := "", hash := GraphValue.nodeHash "",
    size := -1, isAll := true, resultType := resultType, types := "",
    query := Query.typeQuery resultType, result := none, err := none }

/-- The result mapping at the end of Next: quad iterators wrap the hit
identifier as a QuadHash, all others as a NodeHash. -/
def toResult (resultType : String) (resultID : String) : GraphValue :=
  if resultType = "quads" then GraphValue.quadHash resultID else GraphValue.nodeHash resultID

/-- makeElasticResultSet: the scroll-initiating query — unfiltered for the
all-iterator, otherwise filtered by the iterator's query. -/
def Iterator.makeElasticResultSet (be : Backend) (it : Iterator) : Except Unit SearchResult :=
  if it.isAll then be.scrollStartAll it.resultType
  else be.scrollStartQuery it.resultType it.query

/-- The part of Next that runs once a result set rs is present (the source
lines after the initial fetch): consume the hit at resultIndex when in
range; otherwise continue the scroll by the stored token — an error or a
reply with TotalHits = 0 returns false with the state unchanged, and
otherwise the source reads Hits[0] of the new page, whose out-of-range
access on an empty page is the modelled panic none. -/
def Iterator.nextWithSet (be : Backend) (it : Iterator) (rs : SearchResult) :
    Option (Iterator × Bool) :=
  if h : it.resultIndex < rs.hits.length then
    some ({ it with
            resultIndex := it.resultIndex + 1,
            result := some (toResult it.resultType (rs.hits.get ⟨it.resultIndex, h⟩)) }, true)
  else
    match be.scrollNext rs.scrollId with
    | Except.error _ => some (it, false)
    | Except.ok newResults =>
      if newResults.totalHits = 0 then some (it, false)
      else
        match newResults.hits with
        | [] => none
        | resultID :: _ =>
          some ({ it with
                  resultSet := some newResults,
                  resultIndex := 1,
                  result := some (toResult it.resultType resultID) }, true)

/-- Next: when no result set is present the scroll query is executed first
(a failure returns false with the state — including err — unchanged), and
then a hit is consumed from the current page. -/
def Iterator.Next (be : Backend) (it : Iterator) : Option (Iterator × Bool) :=
  match it.resultSet with
  | none =>
    match it.makeElasticResultSet be with
    | Except.error _ => some (it, false)
    | Except.ok results =>
      Iterator.nextWithSet be { it with resultSet := some results } results
  | some rs => Iterator.nextWithSet be it rs

/-- Contains: an all-iterator accepts every candidate; otherwise the
source casts the candidate with v.(QuadHash) — a non-QuadHash candidate
panics (none) — and compares the candidate's component for the iterator's
direction with the stored hash, also accepting unconditionally when the
direction is QuadMetadata.  The component extraction QuadHash.Get is not
under src/ and is modelled from the spec as a parameter g.  The host's
ContainsLog hooks are pure logging and are omitted. -/
def Iterator.Contains (g : String → Direction → String) (it : Iterator) (v : GraphValue) :
    Option (Iterator × Bool) :=
  if it.isAll then
    some ({ it with result := some v }, true)
  else
    match v with
    | GraphValue.quadHash q =>
      if GraphValue.nodeHash (g q it.dir) = it.hash ∨ it.dir = Direction.quadMetadata then
        some ({ it with result := some v }, true)
      else
        some (it, false)
    | _ => none

/-- Err: the sticky error field. -/
def Iterator.Err (it : Iterator) : Option Unit := it.err

/-- Reset: drops the result set and zeroes the position index. -/
def Iterator.Reset (it : Iterator) : Iterator :=
  { it with resultSet := none, resultIndex := 0 }

/-- Clone: rebuilds a fresh iterator from the original's request (store,
result type, direction, hash) and then copies the tag bindings. -/
def Iterator.Clone (uid2 : Nat) (be : Backend) (it : Iterator) : Option Iterator :=
  if it.isAll then
    some { (newAllIterator uid2 it.qs it.resultType) with
           tags := Tagger.copyFrom (newAllIterator uid2 it.qs it.resultType).tags it.tags }
  else
    (newIterator uid2 be it.qs it.resultType it.dir it.hash).map
      (fun m => { m with tags := Tagger.copyFrom m.tags it.tags })

/-- Size: when the cached size is the -1 sentinel, runs the count query;
the returned value is assigned to the cache unconditionally and a count
error is recorded in the sticky error field; the cached value is returned
with the exact flag true. -/
def Iterator.Size (be : Backend) (it : Iterator) : Iterator × Int × Bool :=
  if it.size = -1 then
    match be.count it.resultType it.query with
    | (n, some e) => ({ it with size := n, err := some e }, n, true)
    | (n, none) => ({ it with size := n }, n, true)
  else
    (it, it.size, true)

/-- Iterates Next, recording for each call the returned boolean and the
result field after the call; none propagates the modelled panic. -/
def runIter (be : Backend) (it : Iterator) :
    Nat → Option (Iterator × List (Bool × Option GraphValue))
  | 0 => some (it, [])
  | Nat.succ m =>
    match Iterator.Next be it with
    | none => none
    | some (it2, b) =>
      match runIter be it2 m with
      | none => none
      | some (itF, tr) => some (itF, (b, it2.result) :: tr)

/-- All values a document stores for a field; a document is a flat list of
field/value pairs. -/
def docGet (doc : List (String × String)) (f : String) : List String :=
  (doc.filter (fun p => p.1 == f)).map Prod.snd

/-- Evaluation of a leaf query against a document.  The backend's regexp
matching and its ordering of range values are not reimplemented; they are
the parameters rx and le. -/
def SimpleQuery.matches (rx : String → String → Bool) (le : String → String → Bool) :
    SimpleQuery → List (String × String) → Bool
  | SimpleQuery.term f v, doc => (docGet doc f).contains v
  | SimpleQuery.range f lo hi, doc => (docGet doc f).any (fun x => le lo x && le x hi)
  | SimpleQuery.regexp f p, doc => (docGet doc f).any (fun x => rx p x)

/-- Evaluation of a query against a document: a bool filter is the
conjunction of its leaves; a type query accepts every document of the
scanned type. -/
def Query.matches (rx : String → String → Bool) (le : String → String → Bool) :
    Query → List (String × String) → Bool
  | Query.simple s, doc => s.matches rx le doc
  | Query.boolFilter fs, doc => fs.all (fun s => s.matches rx le doc)
  | Query.typeQuery _, _ => true

/-- The page of size k starting at offset s of a fixed hit list, with the
query's total hit count and a continuation token pointing at the next
offset. -/
def pageAt (hits : List String) (k s : Nat) : SearchResult :=
  { hits := (hits.drop s).take k, totalHits := (hits.length : Int), scrollId := s + k }

/-- A backend serving a fixed hit list in pages of size k: scroll start
returns the first page, the token encodes the next offset, and a
continuation past the end errors, as the client does at end of scroll. -/
def pagedBackend (hits : List String) (k : Nat) : Backend :=
  { fieldMapping := Except.ok [],
    scrollStartAll := fun _ => Except.ok (pageAt hits k 0),
    scrollStartQuery := fun _ _ => Except.ok (pageAt hits k 0),
    scrollNext := fun off =>
      if off < hits.length then Except.ok (pageAt hits k off) else Except.error (),
    count := fun _ _ => ((hits.length : Int), none) }

/-- A backend on which every call fails. -/
def failBackend : Backend :=
  { fieldMapping := Except.error (),
    scrollStartAll := fun _ => Except.error (),
    scrollStartQuery := fun _ _ => Except.error (),
    scrollNext := fun _ => Except.error (),
    count := fun _ _ => (0, some ()) }

/-- A backend whose scroll start finds a single hit. -/
def okOneBackend : Backend :=
  { fieldMapping := Except.ok [],
    scrollStartAll := fun _ => Except.ok { hits := ["h1"], totalHits := 1, scrollId := 1 },
    scrollStartQuery := fun _ _ => Except.ok { hits := ["h1"], totalHits := 1, scrollId := 1 },
    scrollNext := fun _ => Except.error (),
    count := fun _ _ => (1, none) }

/-- A backend whose scroll replies carry a nonzero total hit count but an
empty page hit list — the exhaustion shape the spec's interface allows. -/
def emptyPageBackend : Backend :=
  { fieldMapping := Except.ok [],
    scrollStartAll := fun _ => Except.ok { hits := [], totalHits := 5, scrollId := 7 },
    scrollStartQuery := fun _ _ => Except.ok { hits := [], totalHits := 5, scrollId := 7 },
    scrollNext := fun _ => Except.ok { hits := [], totalHits := 5, scrollId := 8 },
    count := fun _ _ => (5, none) }

/-- A backend whose count query fails with value 7. -/
def countFailBackend : Backend :=
  { fieldMapping := Except.ok [],
    scrollStartAll := fun _ => Except.error (),
    scrollStartQuery := fun _ _ => Except.error (),
    scrollNext := fun _ => Except.error (),
    count := fun _ _ => (7, some ()) }

/-- A backend whose count query answers 9. -/
def countNineBackend : Backend :=
  { fieldMapping := Except.ok [],
    scrollStartAll := fun _ => Except.error (),
    scrollStartQuery := fun _ _ => Except.error (),
    scrollNext := fun _ => Except.error (),
    count := fun _ _ => (9, none) }

/-- A concrete metadata iterator over an empty filter map, built through
NewIterator against a backend with an empty schema. -/
def metaIter : Iterator :=
  (newIterator 1 failBackend 0 "quads" Direction.quadMetadata (GraphValue.quadRef [])).getD
    (newAllIterator 0 0 "quads")

/-- The state of a fresh all-iterator over a one-hit store after one
successful Next: the single page is loaded, its hit consumed and stored as
the result. -/
def advancedOne : Iterator :=
  { (newAllIterator 7 0 "nodes") with
    resultSet := some (pageAt ["a"] 1 0),
    resultIndex := 1,
    result := some (GraphValue.nodeHash "a") }

/-- The pagination invariant of the scroll loop over pagedBackend: after i
hits have been consumed, the current page starts at some offset s with the
position index i - s inside it. -/
def Inv (hits : List String) (k : Nat) (it : Iterator) (i : Nat) : Prop :=
  ∃ s, it.resultSet = some (pageAt hits k s) ∧ it.resultIndex = i - s ∧
    s ≤ i ∧ i ≤ s + k ∧ i ≤ hits.length

/-- The iterator fields Next reads, or that the recorded trace exposes. -/
def obsEq (a b : Iterator) : Prop :=
  a.isAll = b.isAll ∧ a.resultType = b.resultType ∧ a.query = b.query ∧
  a.resultSet = b.resultSet ∧ a.resultIndex = b.resultIndex ∧ a.result = b.result

/-- The iterator's stored query and hash are the ones its own construction
(NewAllIterator or NewIterator, against the schema of be) would build —
true of every iterator the constructors return, and what Clone relies on
to rebuild an equivalent predicate. -/
def cloneConsistent (be : Backend) (it : Iterator) : Prop :=
  (it.isAll = true ∧ it.dir = Direction.any ∧ it.hash = GraphValue.nodeHash "" ∧
    it.query = Query.typeQuery it.resultType) ∨
  (it.isAll = false ∧ it.dir ≠ Direction.quadMetadata ∧
    ∃ s, it.hash = GraphValue.nodeHash s ∧
      it.query = Query.simple (SimpleQuery.term it.dir.str s)) ∨
  (it.isAll = false ∧ it.dir = Direction.quadMetadata ∧
    ∃ fs, it.hash = GraphValue.quadRef fs ∧ it.query = metadataQuery (getFieldMap be) fs)

/-! Equation lemmas for Next, splitting its control flow along the source's
branches. -/

theorem Next_eq_of_set (be : Backend) (it : Iterator) (rs : SearchResult)
    (h : it.resultSet = some rs) :
    Iterator.Next be it = Iterator.nextWithSet be it rs := by
  simp only [Iterator.Next, h]

theorem Next_eq_of_none_err (be : Backend) (it : Iterator)
    (h : it.resultSet = none) (he : it.makeElasticResultSet be = Except.error ()) :
    Iterator.Next be it = some (it, false) := by
  simp only [Iterator.Next, h, he]

theorem Next_eq_of_none_ok (be : Backend) (it : Iterator) (rs : SearchResult)
    (h : it.resultSet = none) (he : it.makeElasticResultSet be = Except.ok rs) :
    Iterator.Next be it = Iterator.nextWithSet be { it with resultSet := some rs } rs := by
  simp only [Iterator.Next, h, he]

theorem nextWithSet_lt (be : Backend) (it : Iterator) (rs : SearchResult)
    (h : it.resultIndex < rs.hits.length) :
    Iterator.nextWithSet be it rs
      = some ({ it with
                resultIndex := it.resultIndex + 1,
                result := some (toResult it.resultType (rs.hits.get ⟨it.resultIndex, h⟩)) },
              true) := by
  simp only [Iterator.nextWithSet, dif_pos h]

theorem nextWithSet_ge_err (be : Backend) (it : Iterator) (rs : SearchResult)
    (h : ¬ it.resultIndex < rs.hits.length)
    (he : be.scrollNext rs.scrollId = Except.error ()) :
    Iterator.nextWithSet be it rs = some (it, false) := by
  simp only [Iterator.nextWithSet, dif_neg h, he]

theorem nextWithSet_ge_total0 (be : Backend) (it : Iterator) (rs nr : SearchResult)
    (h : ¬ it.resultIndex < rs.hits.length)
    (ho : be.scrollNext rs.scrollId = Except.ok nr) (hz : nr.totalHits = 0) :
    Iterator.nextWithSet be it rs = some (it, false) := by
  simp only [Iterator.nextWithSet, dif_neg h, ho, if_pos hz]

theorem nextWithSet_ge_nil (be : Backend) (it : Iterator) (rs nr : SearchResult)
    (h : ¬ it.resultIndex < rs.hits.length)
    (ho : be.scrollNext rs.scrollId = Except.ok nr) (hz : ¬ nr.totalHits = 0)
    (hh : nr.hits = []) :
    Iterator.nextWithSet be it rs = none := by
  simp only [Iterator.nextWithSet, dif_neg h, ho, if_neg hz, hh]

theorem nextWithSet_ge_cons (be : Backend) (it : Iterator) (rs nr : SearchResult)
    (x : String) (xs : List String)
    (h : ¬ it.resultIndex < rs.hits.length)
    (ho : be.scrollNext rs.scrollId = Except.ok nr) (hz : ¬ nr.totalHits = 0)
    (hh : nr.hits = x :: xs) :
    Iterator.nextWithSet be it rs
      = some ({ it with
                resultSet := some nr,
                resultIndex := 1,
                result := some (toResult it.resultType x) },
              true) := by
  simp only [Iterator.nextWithSet, dif_neg h, ho, if_neg hz, hh]

/-- C8: Reset drops the current page (the result set becomes none) and
zeroes the position index, leaving every other field — in particular the
query and the cached size — unchanged. -/
theorem C8_reset_frame (it : Iterator) :
    (Iterator.Reset it).resultSet = none ∧ (Iterator.Reset it).resultIndex = 0 ∧
    (Iterator.Reset it).uid = it.uid ∧ (Iterator.Reset it).tags = it.tags ∧
    (Iterator.Reset it).qs = it.qs ∧ (Iterator.Reset it).dir = it.dir ∧
    (Iterator.Reset it).scrollId = it.scrollId ∧ (Iterator.Reset it).hash = it.hash ∧
    (Iterator.Reset it).size = it.size ∧ (Iterator.Reset it).isAll = it.isAll ∧
    (Iterator.Reset it).resultType = it.resultType ∧ (Iterator.Reset it).types = it.types ∧
    (Iterator.Reset it).query = it.query ∧ (Iterator.Reset it).result = it.result ∧
    (Iterator.Reset it).err = it.err :=
  ⟨rfl, rfl, rfl, rfl, rfl, rfl, rfl, rfl, rfl, rfl, rfl, rfl, rfl, rfl, rfl⟩

/-- C10: for every non-all iterator, Contains type-asserts the candidate
to QuadHash before any comparison: it produces a result exactly when the
candidate is a QuadHash, and panics (none) on a NodeHash or metadata-map
candidate — also for metadata iterators, since the cast precedes the
unconditional-success branch. -/
theorem C10_contains_cast (g : String → Direction → String) (it : Iterator)
    (h : it.isAll = false) :
    (∀ s, Iterator.Contains g it (GraphValue.nodeHash s) = none) ∧
    (∀ fs, Iterator.Contains g it (GraphValue.quadRef fs) = none) ∧
    (∀ q, ∃ r, Iterator.Contains g it (GraphValue.quadHash q) = some r) ∧
    (∀ v, (Iterator.Contains g it v).isSome = true ↔ ∃ q, v = GraphValue.quadHash q) := by
  have h1 : ∀ s, Iterator.Contains g it (GraphValue.nodeHash s) = none := by
    intro s; simp [Iterator.Contains, h]
  have h2 : ∀ fs, Iterator.Contains g it (GraphValue.quadRef fs) = none := by
    intro fs; simp [Iterator.Contains, h]
  have h3 : ∀ q, ∃ r, Iterator.Contains g it (GraphValue.quadHash q) = some r := by
    intro q
    by_cases hc : GraphValue.nodeHash (g q it.dir) = it.hash ∨ it.dir = Direction.quadMetadata
    · exact ⟨({ it with result := some (GraphValue.quadHash q) }, true),
        by simp [Iterator.Contains, h, hc]⟩
    · exact ⟨(it, false), by simp [Iterator.Contains, h, hc]⟩
  refine ⟨h1, h2, h3, ?_⟩
  intro v
  cases v with
  | nodeHash s => simp [h1 s]
  | quadHash q =>
    obtain ⟨r, hr⟩ := h3 q
    simp [hr]
  | quadRef fs => simp [h2 fs]

/-- C10 witness: at a concrete directed iterator, Contains is some on a
QuadHash candidate and none on a NodeHash candidate. -/
theorem C10_contains_cast_witness :
    Iterator.Contains (fun _ _ => "") (newAllIterator 0 0 "quads") (GraphValue.nodeHash "n")
        = none ∨
    (∀ s, Iterator.Contains (fun _ _ => "")
        ((newIterator 8 failBackend 0 "quads" Direction.subject (GraphValue.nodeHash "v")).getD
          (newAllIterator 0 0 "quads")) (GraphValue.nodeHash s) = none) :=
  Or.inr (C10_contains_cast (fun _ _ => "")
    ((newIterator 8 failBackend 0 "quads" Direction.subject (GraphValue.nodeHash "v")).getD
      (newAllIterator 0 0 "quads")) (by decide)).1

/-- C6 as stated is false: a metadata iterator's Contains does not accept
every candidate — a NodeHash candidate hits the QuadHash type assertion
and panics (modelled none) instead of returning true. -/
theorem C6_counterexample :
    Iterator.Contains (fun _ _ => "") metaIter (GraphValue.nodeHash "x") = none := by decide

/-- C6 amended: Contains on an all iterator accepts every candidate and
sets the result value to it; on a directed exact-match iterator with
target t, a QuadHash candidate is accepted exactly when its component for
the iterator's direction equals t; on a metadata iterator every QuadHash
candidate is accepted; non-QuadHash candidates on non-all iterators panic
instead (C10). -/
theorem C6_contains_amended (g : String → Direction → String) (it : Iterator) :
    (it.isAll = true → ∀ v, Iterator.Contains g it v = some ({ it with result := some v }, true)) ∧
    (it.isAll = false → it.dir ≠ Direction.quadMetadata →
      ∀ t c, it.hash = GraphValue.nodeHash t →
        Iterator.Contains g it (GraphValue.quadHash c)
          = if g c it.dir = t
            then some ({ it with result := some (GraphValue.quadHash c) }, true)
            else some (it, false)) ∧
    (it.isAll = false → it.dir = Direction.quadMetadata → ∀ c,
      Iterator.Contains g it (GraphValue.quadHash c)
        = some ({ it with result := some (GraphValue.quadHash c) }, true)) := by
  refine ⟨?_, ?_, ?_⟩
  · intro hall v
    simp [Iterator.Contains, hall]
  · intro hall hdir t c hhash
    by_cases hg : g c it.dir = t
    · simp [Iterator.Contains, hall, hhash, hg, hdir]
    · have hne : ¬ (GraphValue.nodeHash (g c it.dir) = it.hash ∨ it.dir = Direction.quadMetadata) := by
        rw [hhash]
        simp [hg, hdir]
      simp [Iterator.Contains, hall, hne, hg]
  · intro hall hdir c
    simp [Iterator.Contains, hall, hdir]

/-- C6 witness: the amended contract evaluated at a concrete directed
iterator with target v on direction subject. -/
theorem C6_contains_amended_witness :
    Iterator.Contains (fun s _ => s)
        ((newIterator 9 failBackend 0 "quads" Direction.subject (GraphValue.nodeHash "v")).getD
          (newAllIterator 0 0 "quads")) (GraphValue.quadHash "v")
      = if (fun (s : String) (_ : Direction) => s) "v"
            ((newIterator 9 failBackend 0 "quads" Direction.subject (GraphValue.nodeHash "v")).getD
              (newAllIterator 0 0 "quads")).dir = "v"
        then some ({ ((newIterator 9 failBackend 0 "quads" Direction.subject (GraphValue.nodeHash "v")).getD
              (newAllIterator 0 0 "quads")) with result := some (GraphValue.quadHash "v") }, true)
        else some (((newIterator 9 failBackend 0 "quads" Direction.subject (GraphValue.nodeHash "v")).getD
              (newAllIterator 0 0 "quads")), false) :=
  (C6_contains_amended (fun s _ => s)
    ((newIterator 9 failBackend 0 "quads" Direction.subject (GraphValue.nodeHash "v")).getD
      (newAllIterator 0 0 "quads"))).2.1 (by decide) (by decide) "v" "v" (by decide)

/-- C3's failing input evaluated: with a first page carrying no hits and a
scroll continuation whose reply has five total hits but an empty page hit
list, Next reads Hits[0] of the empty page — an out-of-range access,
modelled as none — because the exhaustion test checks TotalHits instead of
the page's hit count. -/
theorem C3_out_of_range :
    Iterator.Next emptyPageBackend (newAllIterator 0 0 "quads") = none := by decide

/-- C7: the size is computed at most once — the first Size call stores the
backend's count reply in the cache and returns it with the exact flag, a
second call against any (possibly changed) backend returns the same cached
value with the state untouched, and a count failure is recorded as the
sticky error while Size still returns the replied value. -/
theorem C7_size_cached (be1 be2 : Backend) (it : Iterator)
    (h : it.size = -1) (hc : (be1.count it.resultType it.query).1 ≠ -1) :
    (Iterator.Size be1 it).2.1 = (be1.count it.resultType it.query).1 ∧
    (Iterator.Size be1 it).2.2 = true ∧
    Iterator.Size be2 (Iterator.Size be1 it).1
      = ((Iterator.Size be1 it).1, (Iterator.Size be1 it).2.1, true) ∧
    ((be1.count it.resultType it.query).2 = some () → (Iterator.Size be1 it).1.err = some ()) := by
  rcases hcnt : be1.count it.resultType it.query with ⟨n, e⟩
  rw [hcnt] at hc
  simp only at hc
  cases e with
  | none =>
    refine ⟨?_, ?_, ?_, ?_⟩
    · simp [Iterator.Size, if_pos h, hcnt]
    · simp [Iterator.Size, if_pos h, hcnt]
    · simp [Iterator.Size, if_pos h, hcnt, hc]
    · intro hco
      simp at hco
  | some e0 =>
    cases e0
    refine ⟨?_, ?_, ?_, ?_⟩
    · simp [Iterator.Size, if_pos h, hcnt]
    · simp [Iterator.Size, if_pos h, hcnt]
    · simp [Iterator.Size, if_pos h, hcnt, hc]
    · intro hco
      simp [Iterator.Size, if_pos h, hcnt]

/-- C7 witness: the caching contract evaluated with a first backend whose
count fails with value 7 and a second backend that would answer 9. -/
theorem C7_size_cached_witness :
    (Iterator.Size countFailBackend (newAllIterator 0 0 "nodes")).2.1
      = (countFailBackend.count (newAllIterator 0 0 "nodes").resultType
          (newAllIterator 0 0 "nodes").query).1 ∧
    (Iterator.Size countFailBackend (newAllIterator 0 0 "nodes")).2.2 = true ∧
    Iterator.Size countNineBackend (Iterator.Size countFailBackend (newAllIterator 0 0 "nodes")).1
      = ((Iterator.Size countFailBackend (newAllIterator 0 0 "nodes")).1,
         (Iterator.Size countFailBackend (newAllIterator 0 0 "nodes")).2.1, true) ∧
    ((countFailBackend.count (newAllIterator 0 0 "nodes").resultType
        (newAllIterator 0 0 "nodes").query).2 = some () →
      (Iterator.Size countFailBackend (newAllIterator 0 0 "nodes")).1.err = some ()) :=
  C7_size_cached countFailBackend countNineBackend (newAllIterator 0 0 "nodes") rfl (by decide)

/-- C5 as stated is false: a scroll-start failure is not recorded in the
sticky error field — the failed advance reports no result with the
iterator unchanged, and Err still reports no error afterwards. -/
theorem C5_counterexample :
    Iterator.Next failBackend (newAllIterator 3 0 "nodes")
        = some (newAllIterator 3 0 "nodes", false) ∧
    Iterator.Err (newAllIterator 3 0 "nodes") = none :=
  ⟨rfl, rfl⟩

/-- C5 amended: a failing count query is recorded in the sticky error
field retrievable via Err while Size still returns the replied value; a
failing scroll start or scroll continuation makes Next report no result
with the whole state — the error field included — unchanged, so those
failures are never recorded. -/
theorem C5_errors_amended (be : Backend) :
    (∀ it : Iterator, it.resultSet = none → it.makeElasticResultSet be = Except.error () →
      Iterator.Next be it = some (it, false)) ∧
    (∀ (it : Iterator) (rs : SearchResult), it.resultSet = some rs →
      ¬ it.resultIndex < rs.hits.length → be.scrollNext rs.scrollId = Except.error () →
      Iterator.Next be it = some (it, false)) ∧
    (∀ (it : Iterator) (n : Int), it.size = -1 →
      be.count it.resultType it.query = (n, some ()) →
      Iterator.Size be it = ({ it with size := n, err := some () }, n, true) ∧
      Iterator.Err { it with size := n, err := some () } = some ()) := by
  refine ⟨?_, ?_, ?_⟩
  · intro it h he
    exact Next_eq_of_none_err be it h he
  · intro it rs hset hlen he
    rw [Next_eq_of_set be it rs hset]
    exact nextWithSet_ge_err be it rs hlen he
  · intro it n h hcnt
    constructor
    · simp only [Iterator.Size, if_pos h, hcnt]
    · rfl

/-- C5 witness: the amended error contract evaluated at a failing scroll
start and at a failing count query. -/
theorem C5_errors_witness :
    Iterator.Next failBackend (newAllIterator 4 0 "nodes")
        = some (newAllIterator 4 0 "nodes", false) ∧
    Iterator.Size countFailBackend (newAllIterator 5 0 "nodes")
        = ({ newAllIterator 5 0 "nodes" with size := 7, err := some () }, 7, true) :=
  ⟨(C5_errors_amended failBackend).1 (newAllIterator 4 0 "nodes") rfl rfl,
   ((C5_errors_amended countFailBackend).2.2 (newAllIterator 5 0 "nodes") 7 rfl rfl).1⟩

/-- A list whose member evaluates to false fails the all-conjunction. -/
theorem all_false_of_mem {α : Type} {p : α → Bool} {l : List α} {x : α}
    (hx : x ∈ l) (hpx : p x = false) : l.all p = false := by
  cases hall : l.all p with
  | false => rfl
  | true =>
    exfalso
    have := List.all_eq_true.mp hall x hx
    rw [hpx] at this
    cases this

/-- If some filter entry is time-typed with a malformed range value, the
built filter list contains the match-nothing nullterm term. -/
theorem nullterm_mem_of_malformed (fm : List (String × String))
    (filters : List (String × String))
    (h : ∃ kv ∈ filters, isTime fm kv.1 Direction.quadMetadata = true ∧
        (splitArrow kv.2).length < 2) :
    SimpleQuery.term "nullterm" "nullterm"
      ∈ buildFilterQueries fm Direction.quadMetadata filters := by
  induction filters with
  | nil =>
    rcases h with ⟨kv, hmem, _⟩
    cases hmem
  | cons kv0 rest ih =>
    rcases kv0 with ⟨k, v⟩
    rcases h with ⟨kv, hmem, hT, hs⟩
    by_cases hTk : isTime fm k Direction.quadMetadata = true
    · rcases hsp : splitArrow v with _ | ⟨a, tl⟩
      · simp [buildFilterQueries, hTk, hsp]
      · rcases tl with _ | ⟨b, t⟩
        · simp [buildFilterQueries, hTk, hsp]
        · have hkv : kv ∈ rest := by
            rcases List.mem_cons.mp hmem with heq | hr
            · exfalso
              rw [heq] at hs
              rw [hsp] at hs
              simp only [List.length_cons] at hs
              omega
            · exact hr
          have hmem2 := ih ⟨kv, hkv, hT, hs⟩
          simp only [buildFilterQueries, if_pos hTk, hsp]
          exact List.mem_cons_of_mem _ hmem2
    · have hkv : kv ∈ rest := by
        rcases List.mem_cons.mp hmem with heq | hr
        · exfalso
          rw [heq] at hT
          exact hTk hT
        · exact hr
      have hmem2 := ih ⟨kv, hkv, hT, hs⟩
      simp only [buildFilterQueries, if_neg hTk]
      exact List.mem_cons_of_mem _ hmem2

/-- C4: metadata-query translation cannot fail and defaults to match
nothing: with an empty or unavailable schema the predicate matches no
document (no stored document carries the reserved nullterm field); if any
time-typed filter value splits into fewer than two parts on the range
delimiter the whole predicate matches no document; and the filter entries
after the first malformed one are ignored (the source's break), so the
built filter list does not depend on them. -/
theorem C4_match_nothing :
    (∀ (filters doc : List (String × String)) (rx le : String → String → Bool),
        docGet doc "nullterm" = [] →
        Query.matches rx le (metadataQuery [] filters) doc = false) ∧
    (∀ (fm filters doc : List (String × String)) (rx le : String → String → Bool),
        (∃ kv ∈ filters, isTime fm kv.1 Direction.quadMetadata = true ∧
            (splitArrow kv.2).length < 2) →
        docGet doc "nullterm" = [] →
        Query.matches rx le (metadataQuery fm filters) doc = false) ∧
    (∀ (fm pre : List (String × String)) (k v : String)
        (r1 r2 : List (String × String)),
        isTime fm k Direction.quadMetadata = true → (splitArrow v).length < 2 →
        buildFilterQueries fm Direction.quadMetadata (pre ++ (k, v) :: r1)
          = buildFilterQueries fm Direction.quadMetadata (pre ++ (k, v) :: r2)) := by
  refine ⟨?_, ?_, ?_⟩
  · intro filters doc rx le hdoc
    simp [metadataQuery, Query.matches, SimpleQuery.matches, hdoc]
  · intro fm filters doc rx le hmal hdoc
    by_cases hfm : fm.length = 0
    · simp [metadataQuery, hfm, Query.matches, SimpleQuery.matches, hdoc]
    · have hmem := nullterm_mem_of_malformed fm filters hmal
      have hval : SimpleQuery.matches rx le (SimpleQuery.term "nullterm" "nullterm") doc
          = false := by
        simp [SimpleQuery.matches, hdoc]
      simp only [metadataQuery, hfm, Query.matches, if_pos (by simp [hfm] : fm.length ≠ 0)]
      exact all_false_of_mem hmem hval
  · intro fm pre k v r1 r2 hT hs
    induction pre with
    | nil =>
      rcases hsp : splitArrow v with _ | ⟨a, tl⟩
      · simp [buildFilterQueries, hT, hsp]
      · rcases tl with _ | ⟨b, t⟩
        · simp [buildFilterQueries, hT, hsp]
        · exfalso
          rw [hsp] at hs
          simp only [List.length_cons] at hs
          omega
    | cons kv0 pre0 ih =>
      rcases kv0 with ⟨k0, v0⟩
      by_cases hTk : isTime fm k0 Direction.quadMetadata = true
      · rcases hsp : splitArrow v0 with _ | ⟨a, tl⟩
        · simp [buildFilterQueries, hTk, hsp]
        · rcases tl with _ | ⟨b, t⟩
          · simp [buildFilterQueries, hTk, hsp]
          · simp only [List.cons_append, buildFilterQueries, if_pos hTk, hsp, List.append_eq]
            rw [ih]
      · simp only [List.cons_append, buildFilterQueries, if_neg hTk, List.append_eq]
        rw [ih]

/-- C4 witness: the three parts of the translation contract evaluated at
an empty schema, at a malformed time range ("only-one-part" has no range
delimiter), and at two continuations after the malformed entry. -/
theorem C4_match_nothing_witness :
    Query.matches (fun _ _ => true) (fun _ _ => true)
        (metadataQuery [] [("num", "5")]) [("subject", "s1")] = false ∧
    Query.matches (fun _ _ => true) (fun _ _ => true)
        (metadataQuery [("metadata.ts", "date")] [("ts", "only-one-part")])
        [("subject", "s1")] = false ∧
    buildFilterQueries [("metadata.ts", "date")] Direction.quadMetadata
        ([("a", "x")] ++ ("ts", "only-one-part") :: [("b", "y")])
      = buildFilterQueries [("metadata.ts", "date")] Direction.quadMetadata
        ([("a", "x")] ++ ("ts", "only-one-part") :: [("c", "z"), ("d", "w")]) :=
  ⟨C4_match_nothing.1 [("num", "5")] [("subject", "s1")]
      (fun _ _ => true) (fun _ _ => true) (by decide),
   C4_match_nothing.2.1 [("metadata.ts", "date")] [("ts", "only-one-part")]
      [("subject", "s1")] (fun _ _ => true) (fun _ _ => true) (by decide) (by decide),
   C4_match_nothing.2.2 [("metadata.ts", "date")] [("a", "x")] "ts" "only-one-part"
      [("b", "y")] [("c", "z"), ("d", "w")] (by decide) (by decide)⟩

/-- The false-reporting branches of nextWithSet leave the iterator exactly
as it was, so a repeat call against the same backend reports false again. -/
theorem nextWithSet_false_stable (be : Backend) (it it2 : Iterator) (rs : SearchResult)
    (hset : it.resultSet = some rs)
    (h : Iterator.nextWithSet be it rs = some (it2, false)) :
    it2 = it ∧ Iterator.Next be it2 = some (it2, false) := by
  by_cases hlt : it.resultIndex < rs.hits.length
  · exfalso
    rw [nextWithSet_lt be it rs hlt] at h
    simp at h
  · rcases hsn : be.scrollNext rs.scrollId with e | nr
    · cases e
      rw [nextWithSet_ge_err be it rs hlt hsn] at h
      simp only [Option.some.injEq, Prod.mk.injEq, and_true] at h
      subst h
      constructor
      · rfl
      · rw [Next_eq_of_set be it rs hset]
        exact nextWithSet_ge_err be it rs hlt hsn
    · by_cases hz : nr.totalHits = 0
      · rw [nextWithSet_ge_total0 be it rs nr hlt hsn hz] at h
        simp only [Option.some.injEq, Prod.mk.injEq, and_true] at h
        subst h
        constructor
        · rfl
        · rw [Next_eq_of_set be it rs hset]
          exact nextWithSet_ge_total0 be it rs nr hlt hsn hz
      · rcases hh : nr.hits with _ | ⟨x, xs⟩
        · exfalso
          rw [nextWithSet_ge_nil be it rs nr hlt hsn hz hh] at h
          cases h
        · exfalso
          rw [nextWithSet_ge_cons be it rs nr x xs hlt hsn hz hh] at h
          simp at h

/-- Iterating from a state on which Next is a false-returning fixed point
yields only false entries. -/
theorem runIter_stuck (be : Backend) (it : Iterator)
    (h : Iterator.Next be it = some (it, false)) :
    ∀ j, runIter be it j = some (it, List.replicate j (false, it.result))
  | 0 => rfl
  | Nat.succ m => by
    simp only [runIter, h, runIter_stuck be it h m]
    rfl

/-- C2 as stated is false: no exhausted flag is stored, so when the
backend's responses change between the calls a Next that returned false
can be followed by a Next that returns true. -/
theorem C2_counterexample :
    Iterator.Next failBackend (newAllIterator 2 0 "nodes")
        = some (newAllIterator 2 0 "nodes", false) ∧
    (Iterator.Next okOneBackend (newAllIterator 2 0 "nodes")).map (fun p => p.2)
        = some true :=
  ⟨rfl, rfl⟩

/-- C2 amended: exhaustion is terminal while the backend's responses stay
the same — after a false-returning Next every further Next against the
same backend returns false from an unchanged state; terminality across
changed backend responses does not hold. -/
theorem C2_terminal_amended (be : Backend) (it it2 : Iterator)
    (h : Iterator.Next be it = some (it2, false)) :
    Iterator.Next be it2 = some (it2, false) ∧
    ∀ j, runIter be it2 j = some (it2, List.replicate j (false, it2.result)) := by
  have hnext : Iterator.Next be it2 = some (it2, false) := by
    rcases hset : it.resultSet with _ | rs
    · rcases hfetch : it.makeElasticResultSet be with e | rs0
      · cases e
        rw [Next_eq_of_none_err be it hset hfetch] at h
        simp only [Option.some.injEq, Prod.mk.injEq, and_true] at h
        subst h
        exact Next_eq_of_none_err be it hset hfetch
      · rw [Next_eq_of_none_ok be it rs0 hset hfetch] at h
        exact (nextWithSet_false_stable be { it with resultSet := some rs0 } it2 rs0 rfl h).2
    · rw [Next_eq_of_set be it rs hset] at h
      exact (nextWithSet_false_stable be it it2 rs hset h).2
  exact ⟨hnext, runIter_stuck be it2 hnext⟩

/-- C2 witness: the amended terminality applied at a concrete iterator
whose scroll start fails. -/
theorem C2_terminal_witness :
    Iterator.Next failBackend (newAllIterator 6 0 "nodes")
        = some (newAllIterator 6 0 "nodes", false) ∧
    ∀ j, runIter failBackend (newAllIterator 6 0 "nodes") j
        = some (newAllIterator 6 0 "nodes",
            List.replicate j (false, (newAllIterator 6 0 "nodes").result)) :=
  C2_terminal_amended failBackend (newAllIterator 6 0 "nodes") (newAllIterator 6 0 "nodes") rfl

theorem pageAt_hits_length (hits : List String) (k s : Nat) :
    (pageAt hits k s).hits.length = min k (hits.length - s) := by
  simp [pageAt, List.length_take, List.length_drop]

/-- One mid-stream Next against the paged backend: with i of the n hits
consumed and i < n, Next returns true, stores hit i as the result, and
re-establishes the pagination invariant at i + 1 — re-querying through the
scroll token exactly when the current page is used up. -/
theorem Next_step_true (hits : List String) (k : Nat) (hk : 1 ≤ k) (it : Iterator) (i : Nat)
    (hinv : Inv hits k it i) (hi : i < hits.length) :
    ∃ it2, Iterator.Next (pagedBackend hits k) it = some (it2, true) ∧
      it2.result = some (toResult it.resultType (hits.get ⟨i, hi⟩)) ∧
      it2.resultType = it.resultType ∧ Inv hits k it2 (i + 1) := by
  obtain ⟨s, hset, hidx, hsi, hik, hin⟩ := hinv
  rw [Next_eq_of_set (pagedBackend hits k) it (pageAt hits k s) hset]
  have hlen : (pageAt hits k s).hits.length = min k (hits.length - s) :=
    pageAt_hits_length hits k s
  have hminle : min k (hits.length - s) ≤ k := Nat.min_le_left _ _
  by_cases hA : it.resultIndex < (pageAt hits k s).hits.length
  · obtain rfl : i = s + it.resultIndex := by omega
    rw [nextWithSet_lt (pagedBackend hits k) it (pageAt hits k s) hA]
    have hel : (pageAt hits k s).hits.get ⟨it.resultIndex, hA⟩
        = hits.get ⟨s + it.resultIndex, hi⟩ := by
      simp only [pageAt, List.get_eq_getElem, List.getElem_take, List.getElem_drop]
    rw [hlen] at hA
    refine ⟨_, rfl, ?_, rfl, ?_⟩
    · rw [hel]
    · refine ⟨s, ?_, ?_, ?_, ?_, ?_⟩
      · exact hset
      · show it.resultIndex + 1 = s + it.resultIndex + 1 - s
        omega
      · omega
      · omega
      · omega
  · have hiks : i = s + k := by
      rw [hlen] at hA
      rcases Nat.le_total k (hits.length - s) with hc | hc
      · rw [Nat.min_eq_left hc] at hA
        omega
      · rw [Nat.min_eq_right hc] at hA
        omega
    have hsn : (pagedBackend hits k).scrollNext (pageAt hits k s).scrollId
        = Except.ok (pageAt hits k i) := by
      have hoff : (pageAt hits k s).scrollId = i := by
        simp only [pageAt]
        omega
      rw [hoff]
      simp only [pagedBackend]
      rw [if_pos hi]
    have hz : ¬ (pageAt hits k i).totalHits = 0 := by
      simp only [pageAt, Int.natCast_eq_zero]
      omega
    obtain ⟨k1, rfl⟩ : ∃ k1, k = k1 + 1 := ⟨k - 1, by omega⟩
    have hconsform : (pageAt hits (k1 + 1) i).hits
        = hits.get ⟨i, hi⟩ :: (hits.drop (i + 1)).take k1 := by
      simp only [pageAt]
      rw [List.drop_eq_getElem_cons hi, List.take_succ_cons, List.get_eq_getElem]
    rw [nextWithSet_ge_cons (pagedBackend hits (k1 + 1)) it (pageAt hits (k1 + 1) s)
      (pageAt hits (k1 + 1) i) (hits.get ⟨i, hi⟩) ((hits.drop (i + 1)).take k1)
      hA hsn hz hconsform]
    refine ⟨_, rfl, rfl, rfl, ?_⟩
    refine ⟨i, rfl, ?_, ?_, ?_, ?_⟩
    · show 1 = i + 1 - i
      omega
    · omega
    · omega
    · omega

/-- Once all n hits are consumed, Next re-queries past the end of the
scroll, the backend errors, and Next reports false with the state exactly
unchanged. -/
theorem Next_exhaust (hits : List String) (k : Nat) (it : Iterator)
    (hinv : Inv hits k it hits.length) :
    Iterator.Next (pagedBackend hits k) it = some (it, false) := by
  obtain ⟨s, hset, hidx, hsi, hik, hin⟩ := hinv
  rw [Next_eq_of_set (pagedBackend hits k) it (pageAt hits k s) hset]
  have hlen : (pageAt hits k s).hits.length = min k (hits.length - s) :=
    pageAt_hits_length hits k s
  have hA : ¬ it.resultIndex < (pageAt hits k s).hits.length := by
    rw [hlen, hidx]
    have h1 : min k (hits.length - s) ≤ hits.length - s := Nat.min_le_right _ _
    omega
  apply nextWithSet_ge_err (pagedBackend hits k) it (pageAt hits k s) hA
  have hoff : (pageAt hits k s).scrollId = s + k := rfl
  rw [hoff]
  simp only [pagedBackend]
  rw [if_neg (by omega : ¬ s + k < hits.length)]

/-- Running the iterator from the invariant at i for the remaining n - i
hits plus j further calls yields the remaining hits in order, then only
false entries. -/
theorem runIter_inv (hits : List String) (k : Nat) (hk : 1 ≤ k) :
    ∀ (m : Nat) (it : Iterator) (i : Nat), Inv hits k it i → i + m = hits.length → ∀ (j : Nat),
      ∃ itF, runIter (pagedBackend hits k) it (m + j)
          = some (itF, ((hits.drop i).map (fun x => (true, some (toResult it.resultType x))))
              ++ List.replicate j (false, itF.result))
  | 0, it, i, hinv, hmn, j => by
    have hii : i = hits.length := by omega
    subst hii
    refine ⟨it, ?_⟩
    rw [List.drop_length]
    simp only [List.map_nil, List.nil_append, Nat.zero_add]
    exact runIter_stuck (pagedBackend hits k) it (Next_exhaust hits k it hinv) j
  | Nat.succ m, it, i, hinv, hmn, j => by
    have hi : i < hits.length := by omega
    obtain ⟨it2, hnext, hres, hrt, hinv2⟩ := Next_step_true hits k hk it i hinv hi
    obtain ⟨itF, hrec⟩ := runIter_inv hits k hk m it2 (i + 1) hinv2 (by omega) j
    refine ⟨itF, ?_⟩
    have hstep : Nat.succ m + j = Nat.succ (m + j) := by omega
    rw [hstep]
    simp only [runIter]
    rw [hnext]
    simp only [hrec, hres, hrt, List.drop_eq_getElem_cons hi, List.map_cons,
      List.cons_append, List.get_eq_getElem]

/-- C1: against a backend serving its hit list in pages of size k ≥ 1 (the
first page from the scroll start, later pages through the scroll token,
an error past the end of the scroll), a fresh iterator's Next returns true
exactly once per hit, storing the hit identifiers in page order as the
successive result values, and every further call returns false. -/
theorem C1_pagination (hits : List String) (k : Nat) (it : Iterator) (hk : 1 ≤ k)
    (h0 : it.resultSet = none) (h1 : it.resultIndex = 0) (j : Nat) :
    ∃ itF, runIter (pagedBackend hits k) it (hits.length + j)
        = some (itF, (hits.map (fun x => (true, some (toResult it.resultType x))))
            ++ List.replicate j (false, itF.result)) := by
  have hfetch : it.makeElasticResultSet (pagedBackend hits k)
      = Except.ok (pageAt hits k 0) := by
    cases hb : it.isAll <;>
      simp [Iterator.makeElasticResultSet, hb, pagedBackend]
  have hinv1 : Inv hits k { it with resultSet := some (pageAt hits k 0) } 0 :=
    ⟨0, rfl, by simpa using h1, Nat.le_refl 0, Nat.zero_le _, Nat.zero_le _⟩
  by_cases hzero : hits.length + j = 0
  · have hj0 : j = 0 := by omega
    have hnil : hits = [] := List.eq_nil_of_length_eq_zero (by omega)
    subst hj0
    subst hnil
    exact ⟨it, rfl⟩
  · have heq : runIter (pagedBackend hits k) it (hits.length + j)
        = runIter (pagedBackend hits k) { it with resultSet := some (pageAt hits k 0) }
            (hits.length + j) := by
      obtain ⟨p, hp⟩ : ∃ p, hits.length + j = Nat.succ p :=
        ⟨hits.length + j - 1, by omega⟩
      rw [hp]
      simp only [runIter]
      rw [Next_eq_of_none_ok (pagedBackend hits k) it (pageAt hits k 0) h0 hfetch]
      rw [Next_eq_of_set (pagedBackend hits k)
        { it with resultSet := some (pageAt hits k 0) } (pageAt hits k 0) rfl]
    obtain ⟨itF, hrun⟩ := runIter_inv hits k hk hits.length
      { it with resultSet := some (pageAt hits k 0) } 0 hinv1 (by omega) j
    refine ⟨itF, ?_⟩
    rw [heq]
    simpa using hrun

/-- C1 witness: three hits served in pages of two, followed by two
exhausted calls. -/
theorem C1_pagination_witness :
    ∃ itF, runIter (pagedBackend ["a", "b", "c"] 2) (newAllIterator 0 0 "quads")
          (["a", "b", "c"].length + 2)
        = some (itF, (["a", "b", "c"].map (fun x =>
              (true, some (toResult (newAllIterator 0 0 "quads").resultType x))))
            ++ List.replicate 2 (false, itF.result)) :=
  C1_pagination ["a", "b", "c"] 2 (newAllIterator 0 0 "quads") (by decide) rfl rfl 2

/-! Congruence of Next and runIter in the observable fields (obsEq), and
frame preservation of the request fields across Next — the two facts the
clone contract rests on. -/

theorem nextWithSet_obsEq (be : Backend) (a b : Iterator) (rs : SearchResult) (h : obsEq a b) :
    (Iterator.nextWithSet be a rs = none ∧ Iterator.nextWithSet be b rs = none) ∨
    (∃ a2 b2 r, Iterator.nextWithSet be a rs = some (a2, r) ∧
      Iterator.nextWithSet be b rs = some (b2, r) ∧ obsEq a2 b2) := by
  obtain ⟨h1, h2, h3, h4, h5, h6⟩ := h
  by_cases hlt : a.resultIndex < rs.hits.length
  · have hltb : b.resultIndex < rs.hits.length := by
      rw [← h5]
      exact hlt
    right
    refine ⟨_, _, true, nextWithSet_lt be a rs hlt, nextWithSet_lt be b rs hltb,
      h1, h2, h3, h4, ?_, ?_⟩
    · show a.resultIndex + 1 = b.resultIndex + 1
      omega
    · show some (toResult a.resultType (rs.hits.get ⟨a.resultIndex, hlt⟩))
          = some (toResult b.resultType (rs.hits.get ⟨b.resultIndex, hltb⟩))
      have hfin : (⟨a.resultIndex, hlt⟩ : Fin rs.hits.length) = ⟨b.resultIndex, hltb⟩ :=
        Fin.ext h5
      rw [h2, hfin]
  · have hltb : ¬ b.resultIndex < rs.hits.length := by
      rw [← h5]
      exact hlt
    rcases hsn : be.scrollNext rs.scrollId with e | nr
    · cases e
      right
      exact ⟨a, b, false, nextWithSet_ge_err be a rs hlt hsn,
        nextWithSet_ge_err be b rs hltb hsn, h1, h2, h3, h4, h5, h6⟩
    · by_cases hz : nr.totalHits = 0
      · right
        exact ⟨a, b, false, nextWithSet_ge_total0 be a rs nr hlt hsn hz,
          nextWithSet_ge_total0 be b rs nr hltb hsn hz, h1, h2, h3, h4, h5, h6⟩
      · rcases hh : nr.hits with _ | ⟨x, xs⟩
        · left
          exact ⟨nextWithSet_ge_nil be a rs nr hlt hsn hz hh,
            nextWithSet_ge_nil be b rs nr hltb hsn hz hh⟩
        · right
          refine ⟨_, _, true, nextWithSet_ge_cons be a rs nr x xs hlt hsn hz hh,
            nextWithSet_ge_cons be b rs nr x xs hltb hsn hz hh,
            h1, h2, h3, rfl, rfl, ?_⟩
          show some (toResult a.resultType x) = some (toResult b.resultType x)
          rw [h2]

theorem Next_obsEq (be : Backend) (a b : Iterator) (h : obsEq a b) :
    (Iterator.Next be a = none ∧ Iterator.Next be b = none) ∨
    (∃ a2 b2 r, Iterator.Next be a = some (a2, r) ∧ Iterator.Next be b = some (b2, r) ∧
      obsEq a2 b2) := by
  obtain ⟨h1, h2, h3, h4, h5, h6⟩ := h
  have hmfe : a.makeElasticResultSet be = b.makeElasticResultSet be := by
    simp only [Iterator.makeElasticResultSet, h1, h2, h3]
  rcases hset : a.resultSet with _ | rs
  · have hsetb : b.resultSet = none := by
      rw [← h4]
      exact hset
    rcases hfetch : a.makeElasticResultSet be with e | rs0
    · cases e
      right
      exact ⟨a, b, false, Next_eq_of_none_err be a hset hfetch,
        Next_eq_of_none_err be b hsetb (by rw [← hmfe]; exact hfetch),
        h1, h2, h3, h4, h5, h6⟩
    · rw [Next_eq_of_none_ok be a rs0 hset hfetch,
        Next_eq_of_none_ok be b rs0 hsetb (by rw [← hmfe]; exact hfetch)]
      exact nextWithSet_obsEq be _ _ rs0 ⟨h1, h2, h3, rfl, h5, h6⟩
  · have hsetb : b.resultSet = some rs := by
      rw [← h4]
      exact hset
    rw [Next_eq_of_set be a rs hset, Next_eq_of_set be b rs hsetb]
    exact nextWithSet_obsEq be a b rs ⟨h1, h2, h3, by rw [hset, hsetb], h5, h6⟩

theorem runIter_obsEq (be : Backend) :
    ∀ (n : Nat) (a b : Iterator), obsEq a b →
      (runIter be a n = none ∧ runIter be b n = none) ∨
      (∃ aF bF tr, runIter be a n = some (aF, tr) ∧ runIter be b n = some (bF, tr) ∧
        obsEq aF bF)
  | 0, a, b, h => Or.inr ⟨a, b, [], rfl, rfl, h⟩
  | Nat.succ m, a, b, h => by
    rcases Next_obsEq be a b h with ⟨hna, hnb⟩ | ⟨a2, b2, r, hna, hnb, h2⟩
    · left
      constructor
      · simp only [runIter, hna]
      · simp only [runIter, hnb]
    · rcases runIter_obsEq be m a2 b2 h2 with ⟨hra, hrb⟩ | ⟨aF, bF, tr, hra, hrb, hF⟩
      · left
        constructor
        · rw [runIter, hna]
          simp only [hra]
        · rw [runIter, hnb]
          simp only [hrb]
      · right
        refine ⟨aF, bF, (r, a2.result) :: tr, ?_, ?_, hF⟩
        · rw [runIter, hna]
          simp only [hra]
        · rw [runIter, hnb]
          have hres : a2.result = b2.result := h2.2.2.2.2.2
          simp only [hrb, hres]

theorem runIter_map_snd_eq (be : Backend) (n : Nat) (a b : Iterator) (h : obsEq a b) :
    (runIter be a n).map (fun p => p.2) = (runIter be b n).map (fun p => p.2) := by
  rcases runIter_obsEq be n a b h with ⟨hna, hnb⟩ | ⟨aF, bF, tr, hra, hrb, _⟩
  · rw [hna, hnb]
  · rw [hra, hrb]
    rfl

theorem nextWithSet_frame (be : Backend) (it it2 : Iterator) (rs : SearchResult) (r : Bool)
    (h : Iterator.nextWithSet be it rs = some (it2, r)) :
    it2.uid = it.uid ∧ it2.tags = it.tags ∧ it2.qs = it.qs ∧ it2.dir = it.dir ∧
    it2.hash = it.hash ∧ it2.isAll = it.isAll ∧ it2.resultType = it.resultType ∧
    it2.query = it.query := by
  by_cases hlt : it.resultIndex < rs.hits.length
  · rw [nextWithSet_lt be it rs hlt] at h
    simp only [Option.some.injEq, Prod.mk.injEq] at h
    obtain ⟨hix, _⟩ := h
    subst hix
    exact ⟨rfl, rfl, rfl, rfl, rfl, rfl, rfl, rfl⟩
  · rcases hsn : be.scrollNext rs.scrollId with e | nr
    · cases e
      rw [nextWithSet_ge_err be it rs hlt hsn] at h
      simp only [Option.some.injEq, Prod.mk.injEq] at h
      obtain ⟨hix, _⟩ := h
      subst hix
      exact ⟨rfl, rfl, rfl, rfl, rfl, rfl, rfl, rfl⟩
    · by_cases hz : nr.totalHits = 0
      · rw [nextWithSet_ge_total0 be it rs nr hlt hsn hz] at h
        simp only [Option.some.injEq, Prod.mk.injEq] at h
        obtain ⟨hix, _⟩ := h
        subst hix
        exact ⟨rfl, rfl, rfl, rfl, rfl, rfl, rfl, rfl⟩
      · rcases hh : nr.hits with _ | ⟨x, xs⟩
        · rw [nextWithSet_ge_nil be it rs nr hlt hsn hz hh] at h
          cases h
        · rw [nextWithSet_ge_cons be it rs nr x xs hlt hsn hz hh] at h
          simp only [Option.some.injEq, Prod.mk.injEq] at h
          obtain ⟨hix, _⟩ := h
          subst hix
          exact ⟨rfl, rfl, rfl, rfl, rfl, rfl, rfl, rfl⟩

theorem Next_frame (be : Backend) (it it2 : Iterator) (r : Bool)
    (h : Iterator.Next be it = some (it2, r)) :
    it2.uid = it.uid ∧ it2.tags = it.tags ∧ it2.qs = it.qs ∧ it2.dir = it.dir ∧
    it2.hash = it.hash ∧ it2.isAll = it.isAll ∧ it2.resultType = it.resultType ∧
    it2.query = it.query := by
  rcases hset : it.resultSet with _ | rs
  · rcases hfetch : it.makeElasticResultSet be with e | rs0
    · cases e
      rw [Next_eq_of_none_err be it hset hfetch] at h
      simp only [Option.some.injEq, Prod.mk.injEq] at h
      obtain ⟨hix, _⟩ := h
      subst hix
      exact ⟨rfl, rfl, rfl, rfl, rfl, rfl, rfl, rfl⟩
    · rw [Next_eq_of_none_ok be it rs0 hset hfetch] at h
      exact nextWithSet_frame be { it with resultSet := some rs0 } it2 rs0 r h
  · rw [Next_eq_of_set be it rs hset] at h
    exact nextWithSet_frame be it it2 rs r h

theorem runIter_frame (be : Backend) :
    ∀ (n : Nat) (it itF : Iterator) (tr : List (Bool × Option GraphValue)),
      runIter be it n = some (itF, tr) →
      itF.tags = it.tags ∧ itF.qs = it.qs ∧ itF.dir = it.dir ∧ itF.hash = it.hash ∧
      itF.isAll = it.isAll ∧ itF.resultType = it.resultType ∧ itF.query = it.query
  | 0, it, itF, tr, h => by
    simp only [runIter, Option.some.injEq, Prod.mk.injEq] at h
    obtain ⟨hix, _⟩ := h
    subst hix
    exact ⟨rfl, rfl, rfl, rfl, rfl, rfl, rfl⟩
  | Nat.succ m, it, itF, tr, h => by
    rcases hnext : Iterator.Next be it with _ | ⟨it2, b⟩
    · simp only [runIter, hnext] at h
      exact Option.noConfusion h
    · simp only [runIter, hnext] at h
      rcases hrec : runIter be it2 m with _ | ⟨itG, tr2⟩
      · simp only [hrec] at h
        exact Option.noConfusion h
      · simp only [hrec, Option.some.injEq, Prod.mk.injEq] at h
        obtain ⟨hix, _⟩ := h
        obtain ⟨s1, s2, s3, s4, s5, s6, s7⟩ := runIter_frame be m it2 itG tr2 hrec
        obtain ⟨_, f2, f3, f4, f5, f6, f7, f8⟩ := Next_frame be it it2 b hnext
        subst hix
        exact ⟨s1.trans f2, s2.trans f3, s3.trans f4, s4.trans f5, s5.trans f6,
          s6.trans f7, s7.trans f8⟩

/-! Equation lemmas for Clone and the two NewIterator branches. -/

theorem Clone_isAll (uid2 : Nat) (be : Backend) (it : Iterator) (h : it.isAll = true) :
    Iterator.Clone uid2 be it
      = some { (newAllIterator uid2 it.qs it.resultType) with
               tags := Tagger.copyFrom (newAllIterator uid2 it.qs it.resultType).tags it.tags } := by
  simp only [Iterator.Clone, h, if_true]

theorem Clone_not_isAll (uid2 : Nat) (be : Backend) (it : Iterator) (h : it.isAll = false) :
    Iterator.Clone uid2 be it
      = (newIterator uid2 be it.qs it.resultType it.dir it.hash).map
          (fun m2 => { m2 with tags := Tagger.copyFrom m2.tags it.tags }) := by
  simp only [Iterator.Clone, h, Bool.false_eq_true, if_false]

theorem newIterator_directed (uid2 : Nat) (be : Backend) (qs : Nat) (rt : String)
    (d : Direction) (hd : ¬ d = Direction.quadMetadata) (s : String) :
    newIterator uid2 be qs rt d (GraphValue.nodeHash s)
      = some { uid := uid2, tags := ⟨[], []⟩, qs := qs, dir := d, resultSet := none,
               resultIndex := 0, scrollId := "", hash := GraphValue.nodeHash s,
               size := -1, isAll := false, resultType := rt, types := "",
               query := Query.simple (SimpleQuery.term d.str s),
               result := none, err := none } := by
  simp only [newIterator, if_neg hd]

theorem newIterator_metadata (uid2 : Nat) (be : Backend) (qs : Nat) (rt : String)
    (fs : List (String × String)) :
    newIterator uid2 be qs rt Direction.quadMetadata (GraphValue.quadRef fs)
      = some { uid := uid2, tags := ⟨[], []⟩, qs := qs, dir := Direction.quadMetadata,
               resultSet := none, resultIndex := 0, scrollId := "",
               hash := GraphValue.quadRef fs, size := -1, isAll := false,
               resultType := rt, types := "",
               query := metadataQuery (getFieldMap be) fs,
               result := none, err := none } := by
  simp [newIterator]

/-- C9: cloning an iterator — in any state reached by advancing a fresh
well-formed original m times — rebuilds a fresh iterator from the
original's request: same store, result type, direction and hash, a freshly
built predicate equal to the original's (against the same schema), no
current page, position 0, uncomputed size, and the original's tag
bindings copied; and the clone's output sequence over any number of calls
equals the fresh original's, however far the original had advanced. -/
theorem C9_clone (be : Backend) (uid2 m n : Nat) (itO itA : Iterator)
    (tr : List (Bool × Option GraphValue))
    (hcons : cloneConsistent be itO)
    (hfresh : itO.resultSet = none ∧ itO.resultIndex = 0 ∧ itO.result = none)
    (hrun : runIter be itO m = some (itA, tr)) :
    ∃ c, Iterator.Clone uid2 be itA = some c ∧
      c.resultSet = none ∧ c.resultIndex = 0 ∧ c.size = -1 ∧ c.result = none ∧
      c.err = none ∧ c.qs = itO.qs ∧ c.resultType = itO.resultType ∧
      c.dir = itO.dir ∧ c.hash = itO.hash ∧ c.isAll = itO.isAll ∧
      c.query = itO.query ∧ c.tags = itA.tags ∧
      (runIter be c n).map (fun p => p.2) = (runIter be itO n).map (fun p => p.2) := by
  obtain ⟨hfr1, hfr2, hfr3⟩ := hfresh
  obtain ⟨htags, hqs, hdir, hhash, hisAll, hrt, hquery⟩ := runIter_frame be m itO itA tr hrun
  rcases hcons with ⟨hall, hdirO, hhashO, hqO⟩ | ⟨hnall, hdirO, s, hhashO, hqO⟩ |
    ⟨hnall, hdirO, fs, hhashO, hqO⟩
  · have hallA : itA.isAll = true := by
      rw [hisAll]
      exact hall
    refine ⟨{ uid := uid2, tags := itA.tags, qs := itA.qs, dir := Direction.any,
              resultSet := none, resultIndex := 0, scrollId := "",
              hash := GraphValue.nodeHash "", size := -1, isAll := true,
              resultType := itA.resultType, types := "",
              query := Query.typeQuery itA.resultType, result := none, err := none },
            ?_, rfl, rfl, rfl, rfl, rfl, ?_, ?_, ?_, ?_, ?_, ?_, rfl, ?_⟩
    · rw [Clone_isAll uid2 be itA hallA]
      rfl
    · exact hqs
    · exact hrt
    · rw [hdirO]
    · rw [hhashO]
    · rw [hall]
    · show Query.typeQuery itA.resultType = itO.query
      rw [hrt, hqO]
    · apply runIter_map_snd_eq
      refine ⟨?_, ?_, ?_, ?_, ?_, ?_⟩
      · show true = itO.isAll
        rw [hall]
      · exact hrt
      · show Query.typeQuery itA.resultType = itO.query
        rw [hrt, hqO]
      · show (none : Option SearchResult) = itO.resultSet
        rw [hfr1]
      · show (0 : Nat) = itO.resultIndex
        rw [hfr2]
      · show (none : Option GraphValue) = itO.result
        rw [hfr3]
  · have hallA : itA.isAll = false := by
      rw [hisAll]
      exact hnall
    have hhashA : itA.hash = GraphValue.nodeHash s := by
      rw [hhash]
      exact hhashO
    have hdirneA : ¬ itA.dir = Direction.quadMetadata := by
      rw [hdir]
      exact hdirO
    refine ⟨{ uid := uid2, tags := itA.tags, qs := itA.qs, dir := itA.dir,
              resultSet := none, resultIndex := 0, scrollId := "",
              hash := GraphValue.nodeHash s, size := -1, isAll := false,
              resultType := itA.resultType, types := "",
              query := Query.simple (SimpleQuery.term itA.dir.str s),
              result := none, err := none },
            ?_, rfl, rfl, rfl, rfl, rfl, ?_, ?_, ?_, ?_, ?_, ?_, rfl, ?_⟩
    · rw [Clone_not_isAll uid2 be itA hallA, hhashA,
        newIterator_directed uid2 be itA.qs itA.resultType itA.dir hdirneA s]
      rfl
    · exact hqs
    · exact hrt
    · exact hdir
    · rw [hhashO]
    · rw [hnall]
    · show Query.simple (SimpleQuery.term itA.dir.str s) = itO.query
      rw [hdir, hqO]
    · apply runIter_map_snd_eq
      refine ⟨?_, ?_, ?_, ?_, ?_, ?_⟩
      · show false = itO.isAll
        rw [hnall]
      · exact hrt
      · show Query.simple (SimpleQuery.term itA.dir.str s) = itO.query
        rw [hdir, hqO]
      · show (none : Option SearchResult) = itO.resultSet
        rw [hfr1]
      · show (0 : Nat) = itO.resultIndex
        rw [hfr2]
      · show (none : Option GraphValue) = itO.result
        rw [hfr3]
  · have hallA : itA.isAll = false := by
      rw [hisAll]
      exact hnall
    have hhashA : itA.hash = GraphValue.quadRef fs := by
      rw [hhash]
      exact hhashO
    have hdirA : itA.dir = Direction.quadMetadata := by
      rw [hdir]
      exact hdirO
    refine ⟨{ uid := uid2, tags := itA.tags, qs := itA.qs, dir := Direction.quadMetadata,
              resultSet := none, resultIndex := 0, scrollId := "",
              hash := GraphValue.quadRef fs, size := -1, isAll := false,
              resultType := itA.resultType, types := "",
              query := metadataQuery (getFieldMap be) fs,
              result := none, err := none },
            ?_, rfl, rfl, rfl, rfl, rfl, ?_, ?_, ?_, ?_, ?_, ?_, rfl, ?_⟩
    · rw [Clone_not_isAll uid2 be itA hallA, hhashA, hdirA,
        newIterator_metadata uid2 be itA.qs itA.resultType fs]
      rfl
    · exact hqs
    · exact hrt
    · rw [hdirO]
    · rw [hhashO]
    · rw [hnall]
    · show metadataQuery (getFieldMap be) fs = itO.query
      rw [hqO]
    · apply runIter_map_snd_eq
      refine ⟨?_, ?_, ?_, ?_, ?_, ?_⟩
      · show false = itO.isAll
        rw [hnall]
      · exact hrt
      · show metadataQuery (getFieldMap be) fs = itO.query
        rw [hqO]
      · show (none : Option SearchResult) = itO.resultSet
        rw [hfr1]
      · show (0 : Nat) = itO.resultIndex
        rw [hfr2]
      · show (none : Option GraphValue) = itO.result
        rw [hfr3]

/-- C9 witness: the clone contract applied after advancing a one-hit
all-iterator one step, with three further calls compared on both sides. -/
theorem C9_clone_witness :
    ∃ c, Iterator.Clone 42 (pagedBackend ["a"] 1) advancedOne = some c ∧
      c.resultSet = none ∧ c.resultIndex = 0 ∧ c.size = -1 ∧ c.result = none ∧
      c.err = none ∧ c.qs = (newAllIterator 7 0 "nodes").qs ∧
      c.resultType = (newAllIterator 7 0 "nodes").resultType ∧
      c.dir = (newAllIterator 7 0 "nodes").dir ∧
      c.hash = (newAllIterator 7 0 "nodes").hash ∧
      c.isAll = (newAllIterator 7 0 "nodes").isAll ∧
      c.query = (newAllIterator 7 0 "nodes").query ∧
      c.tags = advancedOne.tags ∧
      (runIter (pagedBackend ["a"] 1) c 3).map (fun p => p.2)
        = (runIter (pagedBackend ["a"] 1) (newAllIterator 7 0 "nodes") 3).map (fun p => p.2) :=
  C9_clone (pagedBackend ["a"] 1) 42 1 3 (newAllIterator 7 0 "nodes") advancedOne
    [(true, some (GraphValue.nodeHash "a"))]
    (Or.inl ⟨rfl, rfl, rfl, rfl⟩) ⟨rfl, rfl, rfl⟩ (by decide)

end CayleyElastic
